import Mathlib

/-!
Shallow embedding of the conversion orchestrator of `src/App.tsx`
(an AI PDF-to-HTML converter front end).

The component state (`useState` hooks of `App`) is modelled by `AppState`.
The asynchronous `handleConvert` callback is modelled as a pure function
from the initial state and the two external adapters (the PDF text
extractor hook and the Gemini text-to-HTML service) to a *trace* of
events: adapter calls (the `await` suspension points) and React state
updates (`setX` calls).  Folding the state updates over the initial
state yields the final state; the states observable by the presentation
layer are the states at each suspension point plus the final state
(React batches the synchronous state updates between two `await`s).

Adapters are modelled as functions into `Except Exc _`: an awaited call
can either return a value or reject with a JavaScript exception, which
`handleConvert` catches in its `catch` block.  `extractPdfText` resolves
to `string | null` (`Option String` here); the code filters `null`s in
combined mode (`text !== null`) and tests JS truthiness (`if (text)`,
which also rejects the empty string) in individual mode.
-/

namespace PdfToHtml

/-- A pending file as held in the `pdfFiles` state: identified by `name`
(the dedup key of `handleFilesAdded`), with its byte size. -/
structure PFile where
  name : String
  size : Nat
deriving Repr, DecidableEq

/-- The `Result` record type of `App.tsx`. -/
structure Result where
  fileName : String
  htmlContent : String
deriving Repr, DecidableEq

/-- A JavaScript exception value, as seen by the `catch (e)` block: it may
or may not carry a (possibly empty) `message` string. -/
structure Exc where
  message : Option String
deriving Repr, DecidableEq

/-- The component state of `App`: the six `useState` hooks that the
orchestration logic reads and writes. -/
structure AppState where
  pdfFiles : List PFile
  isConverting : Bool
  results : List Result
  error : String
  combineOutput : Bool
  conversionStatus : String
deriving Repr, DecidableEq

deriving instance DecidableEq for Except

/-- The extraction adapter (`extractPdfText` from `usePdfExtractor`):
resolves to extracted text, resolves to `null`, or rejects. -/
def Extract : Type := PFile → Except Exc (Option String)

/-- The transformation adapter (`convertTextToHtml` from
`geminiService`): resolves to HTML text or rejects. -/
def Transform : Type := String → Except Exc String

/-- One observable event of a conversion run: an adapter call (a
suspension point) or a React state update. -/
inductive Ev where
  | extractCall (f : PFile)
  | transformCall (t : String)
  | setConverting (b : Bool)
  | setError (m : String)
  | setResults (rs : List Result)
  | setStatus (m : String)
deriving Repr, DecidableEq

/-- Effect of one event on the component state (adapter calls do not
themselves change the state). -/
def applyEv (s : AppState) : Ev → AppState
  | .setConverting b => { s with isConverting := b }
  | .setError m => { s with error := m }
  | .setResults rs => { s with results := rs }
  | .setStatus m => { s with conversionStatus := m }
  | .extractCall _ => s
  | .transformCall _ => s

/-- Replay a trace of events over a state. -/
def runEvents (s : AppState) (evs : List Ev) : AppState := evs.foldl applyEv s

/-- Whether an event is an adapter call (an `await` suspension point). -/
def isCall : Ev → Bool
  | .extractCall _ => true
  | .transformCall _ => true
  | _ => false

/-- Whether an event is a transformation-adapter call. -/
def isTransformEv : Ev → Bool
  | .transformCall _ => true
  | _ => false

/-- The states the presentation layer can observe during a run: the state
at each suspension point (React flushes batched updates when the callback
awaits) and the final state. -/
def snapshots : AppState → List Ev → List AppState
  | s, [] => [s]
  | s, e :: evs =>
      if isCall e then s :: snapshots (applyEv s e) evs
      else snapshots (applyEv s e) evs

/-! ### File set manager (`handleFilesAdded`, `handleRemoveFile`, `handleClearAll`) -/

/-- `handleFilesAdded(newFiles)`: drop candidates whose name is already in
`pdfFiles` (the `existingFileNames` set is computed from the previous
files only), append the rest in arrival order, and clear results and
error. -/
def handleFilesAdded (s : AppState) (newFiles : List PFile) : AppState :=
  let existingFileNames := s.pdfFiles.map PFile.name
  let uniqueNewFiles := newFiles.filter (fun f => ¬ existingFileNames.contains f.name)
  { s with pdfFiles := s.pdfFiles ++ uniqueNewFiles, results := [], error := "" }

/-- `handleRemoveFile(fileName)`: keep exactly the pending files whose
name differs from `fileName`; no other state field is touched. -/
def handleRemoveFile (s : AppState) (fileName : String) : AppState :=
  { s with pdfFiles := s.pdfFiles.filter (fun f => f.name ≠ fileName) }

/-- `handleClearAll()`: empty the pending set, the results and the error. -/
def handleClearAll (s : AppState) : AppState :=
  { s with pdfFiles := [], results := [], error := "" }

/-- The checkbox `onChange` handler: `setCombineOutput`. -/
def setCombineOutput (s : AppState) (b : Bool) : AppState :=
  { s with combineOutput := b }

/-! ### Conversion orchestrator (`handleConvert`) -/

/-- The separator `'\n\n<hr />\n\n'` used by `validTexts.join`. -/
def combinedSep : String := "\n\n<hr />\n\n"

/-- Validation error of the empty pending set (line 48). -/
def noFilesMsg : String := "Please select one or more PDF files first."

/-- The error thrown when no file yields text in combined mode (line 65). -/
def noTextMsg : String := "Could not extract text from any of the provided files."

/-- Fallback of `e.message || '...'` in the catch block (line 91). -/
def unknownErrorMsg : String := "An unknown error occurred during conversion."

/-- The user-visible message produced by `setError(e.message || fallback)`:
the exception's message unless it is missing or empty (JS falsiness). -/
def errMessage (e : Exc) : String :=
  match e.message with
  | some m => if m = "" then unknownErrorMsg else m
  | none => unknownErrorMsg

/-- The awaited `Promise.all(pdfFiles.map(extractPdfText))`: the per-file
results in original file order, or the first rejection. -/
def fanOut (extract : Extract) : List PFile → Except Exc (List (Option String))
  | [] => .ok []
  | f :: fs =>
      match extract f with
      | .error e => .error e
      | .ok t =>
          match fanOut extract fs with
          | .error e => .error e
          | .ok ts => .ok (t :: ts)

/-- The combined-mode body of the `try` block (lines 57-71): its events
(statuses and adapter calls; `Promise.all` issues every extraction call)
and either the single-element result list to set or the caught
exception. -/
def combinedRun (extract : Extract) (transform : Transform) (files : List PFile) :
    List Ev × Except Exc (List Result) :=
  let n := files.length
  let evs0 := Ev.setStatus s!"Extracting text from {n} files..." :: files.map Ev.extractCall
  match fanOut extract files with
  | .error e => (evs0, .error e)
  | .ok allTexts =>
      let validTexts := allTexts.filterMap id
      if validTexts.isEmpty then
        (evs0, .error ⟨some noTextMsg⟩)
      else
        let combinedText := String.intercalate combinedSep validTexts
        (evs0 ++ [Ev.setStatus "AI is converting combined text...", Ev.transformCall combinedText],
          match transform combinedText with
          | .error e => .error e
          | .ok generatedHtml => .ok [⟨"Combined Output", generatedHtml⟩])

/-- The individual-mode loop (lines 75-86): `i` is the 0-based loop index,
`n` the total file count, `acc` the local `individualResults` array.
Returns the events, the uncaught exception if any, and the accumulator
reached (discarded if an exception escapes). -/
def individualSteps (extract : Extract) (transform : Transform) (n : Nat) :
    Nat → List PFile → List Result → List Ev × Option Exc × List Result
  | _, [], acc => ([], none, acc)
  | i, f :: fs, acc =>
      let nm := f.name
      let j := i + 1
      let evs0 := [Ev.setStatus s!"Converting {nm} ({j}/{n})...", Ev.extractCall f]
      match extract f with
      | .error e => (evs0, some e, acc)
      | .ok none =>
          let rest := individualSteps extract transform n (i + 1) fs acc
          (evs0 ++ rest.1, rest.2)
      | .ok (some t) =>
          if t = "" then
            let rest := individualSteps extract transform n (i + 1) fs acc
            (evs0 ++ rest.1, rest.2)
          else
            match transform t with
            | .error e => (evs0 ++ [Ev.transformCall t], some e, acc)
            | .ok generatedHtml =>
                let rest :=
                  individualSteps extract transform n (i + 1) fs
                    (acc ++ [⟨f.name, generatedHtml⟩])
                (evs0 ++ [Ev.transformCall t] ++ rest.1, rest.2)

/-- The individual-mode body of the `try` block (lines 74-87): events and
either the result list to set (`setResults(individualResults)`) or the
caught exception. -/
def individualRun (extract : Extract) (transform : Transform) (files : List PFile) :
    List Ev × Except Exc (List Result) :=
  match individualSteps extract transform files.length 0 files [] with
  | (evs, some e, _) => (evs, .error e)
  | (evs, none, acc) => (evs, .ok acc)

/-- The full event trace of one `handleConvert()` invocation: the
validation early return (lines 47-50), or the start updates (lines
52-54), the mode-specific body, the `catch` update (line 91) or the
success `setResults`, and the `finally` updates (lines 93-94). -/
def handleConvertTrace (s : AppState) (extract : Extract) (transform : Transform) : List Ev :=
  if s.pdfFiles.isEmpty then
    [Ev.setError noFilesMsg]
  else
    let body :=
      if s.combineOutput then combinedRun extract transform s.pdfFiles
      else individualRun extract transform s.pdfFiles
    [Ev.setConverting true, Ev.setError "", Ev.setResults []]
      ++ body.1
      ++ (match body.2 with
          | .ok rs => [Ev.setResults rs]
          | .error e => [Ev.setError (errMessage e)])
      ++ [Ev.setConverting false, Ev.setStatus ""]

/-- The state in which one `handleConvert()` invocation leaves the
component. -/
def handleConvert (s : AppState) (extract : Extract) (transform : Transform) : AppState :=
  runEvents s (handleConvertTrace s extract transform)

/-! ### Derived notions used in the statements -/

/-- The text the individual-mode loop actually uses for a file: the
extracted text when the call resolves to a JS-truthy string (`if (text)`),
and `none` when it resolves to `null`, to the empty string, or rejects. -/
def extractedText (extract : Extract) (f : PFile) : Option String :=
  match extract f with
  | .ok (some t) => if t = "" then none else some t
  | _ => none

/-- `true` iff an adapter call resolves rather than rejects. -/
def isOkE {α : Type} : Except Exc α → Bool
  | .ok _ => true
  | .error _ => false

/-- The resolved value of an adapter call, if any. -/
def okValue {α : Type} : Except Exc α → Option α
  | .ok a => some a
  | .error _ => none

/-- The result entry the individual-mode loop pushes for a file, if any. -/
def indResult (extract : Extract) (transform : Transform) (f : PFile) : Option Result :=
  (extractedText extract f).bind fun t =>
    (okValue (transform t)).map fun h => Result.mk f.name h

/-- The adapter calls a file causes in the individual-mode loop: its
extraction, then its transformation when the extracted text is truthy. -/
def fileCalls (extract : Extract) (f : PFile) : List Ev :=
  Ev.extractCall f ::
    (match extractedText extract f with
     | some t => [Ev.transformCall t]
     | none => [])

/-- Events that neither set results, nor set the error, nor toggle the
in-progress flag: status updates and adapter calls. -/
def statusOrCall : Ev → Bool
  | .setStatus _ => true
  | .extractCall _ => true
  | .transformCall _ => true
  | _ => false

/-- The mode-selected body of the `try` block of `handleConvert`. -/
def bodyRun (s : AppState) (extract : Extract) (transform : Transform) :
    List Ev × Except Exc (List Result) :=
  if s.combineOutput then combinedRun extract transform s.pdfFiles
  else individualRun extract transform s.pdfFiles

/-! ### General lemmas about replaying traces -/

lemma runEvents_cons (s : AppState) (e : Ev) (evs : List Ev) :
    runEvents s (e :: evs) = runEvents (applyEv s e) evs := rfl

lemma runEvents_append (s : AppState) (a b : List Ev) :
    runEvents s (a ++ b) = runEvents (runEvents s a) b :=
  List.foldl_append applyEv s a b

lemma runEvents_pre (s : AppState) :
    runEvents s [Ev.setConverting true, Ev.setError "", Ev.setResults []] =
      { s with isConverting := true, error := "", results := [] } := rfl

lemma runEvents_setError (s : AppState) (m : String) :
    runEvents s [Ev.setError m] = { s with error := m } := rfl

lemma runEvents_setResults (s : AppState) (rs : List Result) :
    runEvents s [Ev.setResults rs] = { s with results := rs } := rfl

lemma runEvents_fin (s : AppState) :
    runEvents s [Ev.setConverting false, Ev.setStatus ""] =
      { s with isConverting := false, conversionStatus := "" } := rfl

lemma applyEv_pdfFiles (s : AppState) (e : Ev) : (applyEv s e).pdfFiles = s.pdfFiles := by
  cases e <;> rfl

lemma applyEv_combine (s : AppState) (e : Ev) :
    (applyEv s e).combineOutput = s.combineOutput := by
  cases e <;> rfl

lemma runEvents_pdfFiles (evs : List Ev) :
    ∀ s : AppState, (runEvents s evs).pdfFiles = s.pdfFiles := by
  induction evs with
  | nil => intro s; rfl
  | cons e evs ih => intro s; rw [runEvents_cons, ih, applyEv_pdfFiles]

lemma runEvents_combine (evs : List Ev) :
    ∀ s : AppState, (runEvents s evs).combineOutput = s.combineOutput := by
  induction evs with
  | nil => intro s; rfl
  | cons e evs ih => intro s; rw [runEvents_cons, ih, applyEv_combine]

lemma applyEv_statusOrCall (s : AppState) (e : Ev) (h : statusOrCall e = true) :
    (applyEv s e).isConverting = s.isConverting ∧ (applyEv s e).results = s.results ∧
      (applyEv s e).error = s.error := by
  cases e <;> first
    | exact ⟨rfl, rfl, rfl⟩
    | simp [statusOrCall] at h

lemma runEvents_statusOrCall (evs : List Ev) :
    ∀ s : AppState, (∀ e ∈ evs, statusOrCall e = true) →
      (runEvents s evs).isConverting = s.isConverting ∧
        (runEvents s evs).results = s.results ∧ (runEvents s evs).error = s.error := by
  induction evs with
  | nil => intro s _; exact ⟨rfl, rfl, rfl⟩
  | cons e evs ih =>
      intro s h
      have he := h e (List.mem_cons_self e evs)
      have h1 := applyEv_statusOrCall s e he
      have h2 := ih (applyEv s e) (fun x hx => h x (List.mem_cons_of_mem e hx))
      rw [runEvents_cons]
      exact ⟨h2.1.trans h1.1, h2.2.1.trans h1.2.1, h2.2.2.trans h1.2.2⟩

/-! ### General lemmas about observable snapshots -/

lemma snapshots_ne_nil (evs : List Ev) : ∀ s : AppState, snapshots s evs ≠ [] := by
  induction evs with
  | nil => intro s; simp [snapshots]
  | cons e evs ih =>
      intro s
      simp only [snapshots]
      split
      · simp
      · exact ih _

lemma snapshots_append (a : List Ev) :
    ∀ (s : AppState) (b : List Ev),
      snapshots s (a ++ b) = (snapshots s a).dropLast ++ snapshots (runEvents s a) b := by
  induction a with
  | nil => intro s b; simp [snapshots, runEvents]
  | cons e a ih =>
      intro s b
      simp only [List.cons_append, snapshots, List.append_eq]
      by_cases hc : isCall e
      · rw [if_pos hc, if_pos hc, ih,
          List.dropLast_cons_of_ne_nil (snapshots_ne_nil a (applyEv s e)), runEvents_cons]
        rfl
      · rw [if_neg hc, if_neg hc, ih, runEvents_cons]

lemma snapshots_noCall (evs : List Ev) :
    ∀ s : AppState, (∀ e ∈ evs, isCall e = false) → snapshots s evs = [runEvents s evs] := by
  induction evs with
  | nil => intro s _; rfl
  | cons e evs ih =>
      intro s h
      have he := h e (List.mem_cons_self e evs)
      simp only [snapshots]
      rw [if_neg (by simp [he]), ih _ (fun x hx => h x (List.mem_cons_of_mem e hx)),
        runEvents_cons]

lemma snapshots_statusOrCall (evs : List Ev) :
    ∀ s : AppState, (∀ e ∈ evs, statusOrCall e = true) →
      ∀ st ∈ snapshots s evs,
        st.isConverting = s.isConverting ∧ st.results = s.results ∧ st.error = s.error := by
  induction evs with
  | nil =>
      intro s _ st hst
      simp only [snapshots, List.mem_singleton] at hst
      subst hst
      exact ⟨rfl, rfl, rfl⟩
  | cons e evs ih =>
      intro s h st hst
      have he := h e (List.mem_cons_self e evs)
      have hf := applyEv_statusOrCall s e he
      have hrest := ih (applyEv s e) (fun x hx => h x (List.mem_cons_of_mem e hx))
      simp only [snapshots] at hst
      by_cases hc : isCall e
      · rw [if_pos hc] at hst
        rcases List.mem_cons.mp hst with h1 | h1
        · subst h1; exact ⟨rfl, rfl, rfl⟩
        · have h2 := hrest st h1
          exact ⟨h2.1.trans hf.1, h2.2.1.trans hf.2.1, h2.2.2.trans hf.2.2⟩
      · rw [if_neg hc] at hst
        have h2 := hrest st hst
        exact ⟨h2.1.trans hf.1, h2.2.1.trans hf.2.1, h2.2.2.trans hf.2.2⟩

/-! ### The shape of the events emitted by each mode body -/

lemma mem_extractEvs {e : Ev} {files : List PFile} (h : e ∈ files.map Ev.extractCall) :
    statusOrCall e = true := by
  obtain ⟨f, _, rfl⟩ := List.mem_map.mp h
  rfl

lemma combinedRun_statusOrCall (ex : Extract) (tr : Transform) (files : List PFile) :
    ∀ e ∈ (combinedRun ex tr files).1, statusOrCall e = true := by
  intro e he
  unfold combinedRun at he
  rcases hfo : fanOut ex files with exc | allTexts
  · rw [hfo] at he
    simp only at he
    rcases List.mem_cons.mp he with rfl | h
    · rfl
    · exact mem_extractEvs h
  · rw [hfo] at he
    simp only at he
    by_cases hv : (allTexts.filterMap id).isEmpty
    · rw [if_pos hv] at he
      rcases List.mem_cons.mp he with rfl | h
      · rfl
      · exact mem_extractEvs h
    · rw [if_neg hv] at he
      rcases List.mem_append.mp he with h | h
      · rcases List.mem_cons.mp h with rfl | h
        · rfl
        · exact mem_extractEvs h
      · rcases List.mem_cons.mp h with rfl | h
        · rfl
        · rcases List.mem_cons.mp h with rfl | h
          · rfl
          · simp at h

lemma individualSteps_statusOrCall (ex : Extract) (tr : Transform) (n : Nat) :
    ∀ (files : List PFile) (i : Nat) (acc : List Result),
      ∀ e ∈ (individualSteps ex tr n i files acc).1, statusOrCall e = true := by
  intro files
  induction files with
  | nil => intro i acc e he; simp [individualSteps] at he
  | cons f fs ih =>
      intro i acc e he
      unfold individualSteps at he
      rcases hex : ex f with exc | t
      · rw [hex] at he
        simp only at he
        rcases List.mem_cons.mp he with rfl | h
        · rfl
        · rcases List.mem_cons.mp h with rfl | h
          · rfl
          · simp at h
      · rw [hex] at he
        rcases t with _ | t
        · simp only at he
          rcases List.mem_append.mp he with h | h
          · rcases List.mem_cons.mp h with rfl | h
            · rfl
            · rcases List.mem_cons.mp h with rfl | h
              · rfl
              · simp at h
          · exact ih (i + 1) acc e h
        · simp only at he
          by_cases ht : t = ""
          · rw [if_pos ht] at he
            rcases List.mem_append.mp he with h | h
            · rcases List.mem_cons.mp h with rfl | h
              · rfl
              · rcases List.mem_cons.mp h with rfl | h
                · rfl
                · simp at h
            · exact ih (i + 1) acc e h
          · rw [if_neg ht] at he
            rcases htr : tr t with exc | generatedHtml
            · rw [htr] at he
              simp only at he
              rcases List.mem_append.mp he with h | h
              · rcases List.mem_cons.mp h with rfl | h
                · rfl
                · rcases List.mem_cons.mp h with rfl | h
                  · rfl
                  · simp at h
              · rcases List.mem_cons.mp h with rfl | h
                · rfl
                · simp at h
            · rw [htr] at he
              simp only at he
              rcases List.mem_append.mp he with h | h
              · rcases List.mem_append.mp h with h2 | h2
                · rcases List.mem_cons.mp h2 with rfl | h2
                  · rfl
                  · rcases List.mem_cons.mp h2 with rfl | h2
                    · rfl
                    · simp at h2
                · rcases List.mem_cons.mp h2 with rfl | h2
                  · rfl
                  · simp at h2
              · exact ih (i + 1) (acc ++ [⟨f.name, generatedHtml⟩]) e h

lemma individualRun_events (ex : Extract) (tr : Transform) (files : List PFile) :
    (individualRun ex tr files).1 = (individualSteps ex tr files.length 0 files []).1 := by
  unfold individualRun
  rcases hs : individualSteps ex tr files.length 0 files [] with ⟨evs, oe, acc⟩
  cases oe <;> rfl

lemma individualRun_statusOrCall (ex : Extract) (tr : Transform) (files : List PFile) :
    ∀ e ∈ (individualRun ex tr files).1, statusOrCall e = true := by
  rw [individualRun_events]
  exact individualSteps_statusOrCall ex tr files.length files 0 []

lemma bodyRun_statusOrCall (s : AppState) (ex : Extract) (tr : Transform) :
    ∀ e ∈ (bodyRun s ex tr).1, statusOrCall e = true := by
  unfold bodyRun
  by_cases hc : s.combineOutput
  · rw [if_pos hc]; exact combinedRun_statusOrCall ex tr s.pdfFiles
  · rw [if_neg hc]; exact individualRun_statusOrCall ex tr s.pdfFiles

lemma statusOrCall_not_call {e : Ev} (h : statusOrCall e = false) : isCall e = false := by
  cases e <;> first
    | rfl
    | simp [statusOrCall] at h

/-! ### Closed form of a full `handleConvert` run -/

lemma handleConvertTrace_eq (s : AppState) (ex : Extract) (tr : Transform)
    (h : s.pdfFiles ≠ []) :
    handleConvertTrace s ex tr =
      [Ev.setConverting true, Ev.setError "", Ev.setResults []]
        ++ (bodyRun s ex tr).1
        ++ (match (bodyRun s ex tr).2 with
            | .ok rs => [Ev.setResults rs]
            | .error e => [Ev.setError (errMessage e)])
        ++ [Ev.setConverting false, Ev.setStatus ""] := by
  unfold handleConvertTrace bodyRun
  rw [if_neg (by simp [List.isEmpty_iff, h])]

/-- Every run over a non-empty pending set ends with `isConverting = false`,
an empty status, the pending set and mode untouched, and results/error
determined by the body's outcome: the results to set on success (error
cleared), or empty results and the caught exception's message. -/
theorem handleConvert_fields (s : AppState) (ex : Extract) (tr : Transform)
    (h : s.pdfFiles ≠ []) :
    (handleConvert s ex tr).pdfFiles = s.pdfFiles ∧
    (handleConvert s ex tr).combineOutput = s.combineOutput ∧
    (handleConvert s ex tr).isConverting = false ∧
    (handleConvert s ex tr).conversionStatus = "" ∧
    (handleConvert s ex tr).results =
      (match (bodyRun s ex tr).2 with | .ok rs => rs | .error _ => []) ∧
    (handleConvert s ex tr).error =
      (match (bodyRun s ex tr).2 with | .ok _ => "" | .error e => errMessage e) := by
  unfold handleConvert
  rw [handleConvertTrace_eq s ex tr h, runEvents_append, runEvents_append, runEvents_append,
    runEvents_pre]
  have hbody := runEvents_statusOrCall (bodyRun s ex tr).1
    { s with isConverting := true, error := "", results := [] } (bodyRun_statusOrCall s ex tr)
  have hpdf := runEvents_pdfFiles (bodyRun s ex tr).1
    { s with isConverting := true, error := "", results := [] }
  have hcomb := runEvents_combine (bodyRun s ex tr).1
    { s with isConverting := true, error := "", results := [] }
  rcases ho : (bodyRun s ex tr).2 with exc | rs
  · simp only [ho]
    rw [runEvents_setError, runEvents_fin]
    exact ⟨hpdf, hcomb, rfl, rfl, hbody.2.1, rfl⟩
  · simp only [ho]
    rw [runEvents_setResults, runEvents_fin]
    exact ⟨hpdf, hcomb, rfl, rfl, rfl, hbody.2.2⟩

/-- The adapter calls of a full run are exactly the adapter calls of the
mode-specific body. -/
lemma handleConvertTrace_calls (s : AppState) (ex : Extract) (tr : Transform)
    (h : s.pdfFiles ≠ []) :
    (handleConvertTrace s ex tr).filter isCall = ((bodyRun s ex tr).1).filter isCall := by
  rw [handleConvertTrace_eq s ex tr h]
  rcases ho : (bodyRun s ex tr).2 with exc | rs <;>
    simp [List.filter_append, isCall]

/-! ### Characterisation of the individual-mode loop -/

/-! ### Characterisation of the individual-mode loop -/

lemma individualRun_outcome (ex : Extract) (tr : Transform) (files : List PFile) :
    (individualRun ex tr files).2 =
      match (individualSteps ex tr files.length 0 files []).2.1 with
      | some e => .error e
      | none => .ok (individualSteps ex tr files.length 0 files []).2.2 := by
  unfold individualRun
  rcases hs : individualSteps ex tr files.length 0 files [] with ⟨evs, oe, acc⟩
  cases oe <;> rfl

lemma individualSteps_ok (ex : Extract) (tr : Transform) (n : Nat) :
    ∀ (files : List PFile) (i : Nat) (acc : List Result),
      (∀ f ∈ files, isOkE (ex f) = true) →
      (∀ f ∈ files, (extractedText ex f).all (fun t => isOkE (tr t)) = true) →
      (individualSteps ex tr n i files acc).2.1 = none ∧
      (individualSteps ex tr n i files acc).2.2 =
        acc ++ files.filterMap (indResult ex tr) ∧
      ((individualSteps ex tr n i files acc).1).filter isCall =
        files.flatMap (fileCalls ex) := by
  intro files
  induction files with
  | nil => intro i acc _ _; exact ⟨rfl, by simp [individualSteps], by simp [individualSteps]⟩
  | cons f fs ih =>
      intro i acc hex htr
      have hexf := hex f (List.mem_cons_self f fs)
      have htrf := htr f (List.mem_cons_self f fs)
      have hex2 := fun x hx => hex x (List.mem_cons_of_mem f hx)
      have htr2 := fun x hx => htr x (List.mem_cons_of_mem f hx)
      rcases hext : ex f with exc | t
      · rw [hext] at hexf; simp [isOkE] at hexf
      · rcases t with _ | t
        · have hnone : extractedText ex f = none := by simp [extractedText, hext]
          have h2 := ih (i + 1) acc hex2 htr2
          simp only [individualSteps, hext]
          refine ⟨h2.1, ?_, ?_⟩
          · rw [h2.2.1]
            simp [List.filterMap_cons, indResult, hnone]
          · rw [List.filter_append, h2.2.2]
            simp [List.flatMap_cons, fileCalls, hnone, isCall]
        · by_cases ht : t = ""
          · have hnone : extractedText ex f = none := by
              simp [extractedText, hext, ht]
            have h2 := ih (i + 1) acc hex2 htr2
            simp only [individualSteps, hext]
            rw [if_pos ht]
            refine ⟨h2.1, ?_, ?_⟩
            · rw [h2.2.1]
              simp [List.filterMap_cons, indResult, hnone]
            · rw [List.filter_append, h2.2.2]
              simp [List.flatMap_cons, fileCalls, hnone, isCall]
          · have hsome : extractedText ex f = some t := by
              simp [extractedText, hext, ht]
            rw [hsome] at htrf
            simp only [Option.all_some] at htrf
            rcases htrt : tr t with exc | generatedHtml
            · rw [htrt] at htrf; simp [isOkE] at htrf
            · have h2 := ih (i + 1) (acc ++ [⟨f.name, generatedHtml⟩]) hex2 htr2
              simp only [individualSteps, hext]
              rw [if_neg ht, htrt]
              simp only
              refine ⟨h2.1, ?_, ?_⟩
              · rw [h2.2.1]
                simp [List.filterMap_cons, indResult, hsome, okValue, htrt, List.append_assoc]
              · rw [List.filter_append, List.filter_append, h2.2.2]
                simp [List.flatMap_cons, fileCalls, hsome, isCall]

lemma individualSteps_abort (ex : Extract) (tr : Transform) (n : Nat)
    (f : PFile) (t : String) (exc : Exc)
    (hf : ex f = .ok (some t)) (ht : ¬ t = "") (htrt : tr t = .error exc) :
    ∀ (pre : List PFile) (i : Nat) (acc : List Result) (post : List PFile),
      (∀ p ∈ pre, isOkE (ex p) = true) →
      (∀ p ∈ pre, (extractedText ex p).all (fun u => isOkE (tr u)) = true) →
      (individualSteps ex tr n i (pre ++ f :: post) acc).2.1 = some exc ∧
      ((individualSteps ex tr n i (pre ++ f :: post) acc).1).filter isCall =
        pre.flatMap (fileCalls ex) ++ [Ev.extractCall f, Ev.transformCall t] := by
  intro pre
  induction pre with
  | nil =>
      intro i acc post _ _
      rw [List.nil_append]
      simp only [individualSteps, hf]
      rw [if_neg ht, htrt]
      refine ⟨by trivial, ?_⟩
      simp [isCall]
  | cons p ps ih =>
      intro i acc post hex htr
      have hexp := hex p (List.mem_cons_self p ps)
      have htrp := htr p (List.mem_cons_self p ps)
      have hex2 := fun x hx => hex x (List.mem_cons_of_mem p hx)
      have htr2 := fun x hx => htr x (List.mem_cons_of_mem p hx)
      rcases hext : ex p with pexc | pt
      · rw [hext] at hexp; simp [isOkE] at hexp
      · rcases pt with _ | pt
        · have hnone : extractedText ex p = none := by simp [extractedText, hext]
          have h2 := ih (i + 1) acc post hex2 htr2
          rw [List.cons_append]
          simp only [individualSteps, hext]
          refine ⟨h2.1, ?_⟩
          rw [List.filter_append, h2.2]
          simp [List.flatMap_cons, fileCalls, hnone, isCall, List.append_assoc]
        · by_cases htp : pt = ""
          · have hnone : extractedText ex p = none := by
              simp [extractedText, hext, htp]
            have h2 := ih (i + 1) acc post hex2 htr2
            rw [List.cons_append]
            simp only [individualSteps, hext]
            rw [if_pos htp]
            refine ⟨h2.1, ?_⟩
            rw [List.filter_append, h2.2]
            simp [List.flatMap_cons, fileCalls, hnone, isCall, List.append_assoc]
          · have hsome : extractedText ex p = some pt := by
              simp [extractedText, hext, htp]
            rw [hsome] at htrp
            simp only [Option.all_some] at htrp
            rcases htrpt : tr pt with pexc | generatedHtml
            · rw [htrpt] at htrp; simp [isOkE] at htrp
            · have h2 := ih (i + 1) (acc ++ [⟨p.name, generatedHtml⟩]) post hex2 htr2
              simp only [List.cons_append, individualSteps, hext]
              rw [if_neg htp, htrpt]
              simp only
              refine ⟨h2.1, ?_⟩
              simp [List.flatMap_cons, fileCalls, hsome, isCall, List.append_assoc, h2.2]

/-! ### Characterisation of the combined-mode body -/

lemma combinedRun_fanout_error (ex : Extract) (tr : Transform) (files : List PFile)
    (e : Exc) (h : fanOut ex files = .error e) :
    combinedRun ex tr files =
      (Ev.setStatus s!"Extracting text from {files.length} files..."
          :: files.map Ev.extractCall,
        .error e) := by
  simp only [combinedRun, h]

lemma combinedRun_no_text (ex : Extract) (tr : Transform) (files : List PFile)
    (ts : List (Option String)) (h : fanOut ex files = .ok ts)
    (hv : ts.filterMap id = []) :
    combinedRun ex tr files =
      (Ev.setStatus s!"Extracting text from {files.length} files..."
          :: files.map Ev.extractCall,
        .error ⟨some noTextMsg⟩) := by
  simp only [combinedRun, h]
  rw [if_pos (by simp [List.isEmpty_iff, hv])]

lemma combinedRun_transform (ex : Extract) (tr : Transform) (files : List PFile)
    (ts : List (Option String)) (h : fanOut ex files = .ok ts)
    (hv : ts.filterMap id ≠ []) :
    combinedRun ex tr files =
      ((Ev.setStatus s!"Extracting text from {files.length} files..."
            :: files.map Ev.extractCall)
          ++ [Ev.setStatus "AI is converting combined text...",
              Ev.transformCall (String.intercalate combinedSep (ts.filterMap id))],
        match tr (String.intercalate combinedSep (ts.filterMap id)) with
        | .error e => .error e
        | .ok generatedHtml => .ok [⟨"Combined Output", generatedHtml⟩]) := by
  simp only [combinedRun, h]
  rw [if_neg (by simp [List.isEmpty_iff, hv])]

lemma combinedRun_ok_shape (ex : Extract) (tr : Transform) (files : List PFile)
    (rs : List Result) (h : (combinedRun ex tr files).2 = .ok rs) :
    ∃ generatedHtml, rs = [⟨"Combined Output", generatedHtml⟩] := by
  rcases hfo : fanOut ex files with e | ts
  · rw [combinedRun_fanout_error ex tr files e hfo] at h
    simp at h
  · by_cases hv : ts.filterMap id = []
    · rw [combinedRun_no_text ex tr files ts hfo hv] at h
      simp at h
    · rw [combinedRun_transform ex tr files ts hfo hv] at h
      rcases htc : tr (String.intercalate combinedSep (ts.filterMap id)) with e | g
      · rw [htc] at h; simp at h
      · rw [htc] at h
        simp only at h
        exact ⟨g, (Except.ok.injEq _ _ ▸ h :
          ([⟨"Combined Output", g⟩] : List Result) = rs).symm⟩

lemma filter_map_extractCall_false (p : Ev → Bool)
    (hp : ∀ f, p (Ev.extractCall f) = false) (files : List PFile) :
    (files.map Ev.extractCall).filter p = [] := by
  induction files with
  | nil => rfl
  | cons f fs ih => simp [List.filter_cons, hp, ih]

lemma filter_map_extractCall_isCall (files : List PFile) :
    (files.map Ev.extractCall).filter isCall = files.map Ev.extractCall := by
  induction files with
  | nil => rfl
  | cons f fs ih => simp [List.filter_cons, isCall, ih]

/-! ### The validation early return and the snapshot decomposition of a run -/

lemma handleConvert_empty (s : AppState) (ex : Extract) (tr : Transform)
    (h : s.pdfFiles = []) :
    handleConvertTrace s ex tr = [Ev.setError noFilesMsg] ∧
    handleConvert s ex tr = { s with error := noFilesMsg } := by
  have ht : handleConvertTrace s ex tr = [Ev.setError noFilesMsg] := by
    unfold handleConvertTrace
    rw [if_pos (by simp [List.isEmpty_iff, h])]
  exact ⟨ht, by unfold handleConvert; rw [ht]; rfl⟩

lemma snapshots_trace_eq (s : AppState) (ex : Extract) (tr : Transform)
    (hne : s.pdfFiles ≠ []) :
    snapshots s (handleConvertTrace s ex tr) =
      (snapshots { s with isConverting := true, error := "", results := [] }
          (bodyRun s ex tr).1).dropLast
        ++ [handleConvert s ex tr] := by
  have htr_eq := handleConvertTrace_eq s ex tr hne
  have hmid : ∃ m : Ev,
      (match (bodyRun s ex tr).2 with
        | .ok rs => [Ev.setResults rs]
        | .error e => [Ev.setError (errMessage e)]) = [m] ∧ isCall m = false := by
    rcases (bodyRun s ex tr).2 with e | rs
    · exact ⟨Ev.setError (errMessage e), rfl, rfl⟩
    · exact ⟨Ev.setResults rs, rfl, rfl⟩
  obtain ⟨m, hm, hmc⟩ := hmid
  rw [hm] at htr_eq
  have hnc : ∀ x ∈ [m] ++ [Ev.setConverting false, Ev.setStatus ""], isCall x = false := by
    intro x hx
    rcases List.mem_append.mp hx with h1 | h1
    · rw [List.mem_singleton] at h1; subst h1; exact hmc
    · rcases List.mem_cons.mp h1 with rfl | h1
      · rfl
      · rw [List.mem_singleton] at h1; subst h1; rfl
  have hpre : ∀ x ∈ [Ev.setConverting true, Ev.setError "", Ev.setResults []],
      isCall x = false := by decide
  rw [htr_eq, List.append_assoc, List.append_assoc, snapshots_append,
    snapshots_noCall _ _ hpre, runEvents_pre]
  simp only [List.dropLast_single, List.nil_append]
  rw [snapshots_append, snapshots_noCall _ _ hnc]
  congr 1
  unfold handleConvert
  rw [htr_eq, List.append_assoc, List.append_assoc, runEvents_append, runEvents_append,
    runEvents_pre, runEvents_append, runEvents_append]

/-- Every state observable during a run over a non-empty pending set is
either a mid-run state (in-progress, empty results and error) or the
final state. -/
lemma snapshots_trace_split (s : AppState) (ex : Extract) (tr : Transform)
    (hne : s.pdfFiles ≠ []) :
    ∀ st ∈ snapshots s (handleConvertTrace s ex tr),
      (st.isConverting = true ∧ st.results = [] ∧ st.error = "") ∨
        st = handleConvert s ex tr := by
  intro st hst
  rw [snapshots_trace_eq s ex tr hne] at hst
  rcases List.mem_append.mp hst with h1 | h1
  · left
    have h2 := (List.dropLast_prefix _).subset h1
    have h3 := snapshots_statusOrCall (bodyRun s ex tr).1
      { s with isConverting := true, error := "", results := [] }
      (bodyRun_statusOrCall s ex tr) st h2
    exact ⟨h3.1, h3.2.1, h3.2.2⟩
  · right
    rw [List.mem_singleton] at h1
    exact h1

/-! ### Concrete fixtures used by witnesses and counterexamples -/

/-- A first sample pending file. -/
def fileA : PFile := ⟨"A.pdf", 1⟩

/-- A second sample pending file. -/
def fileB : PFile := ⟨"B.pdf", 2⟩

/-- A third sample pending file. -/
def fileC : PFile := ⟨"C.pdf", 3⟩

/-- The initial component state (`useState` defaults of `App`). -/
def initialState : AppState := ⟨[], false, [], "", true, ""⟩

/-- Combined-mode state with `A.pdf` and `B.pdf` pending. -/
def sCombinedAB : AppState := ⟨[fileA, fileB], false, [], "", true, ""⟩

/-- Combined-mode state with only `A.pdf` pending. -/
def sCombinedA : AppState := ⟨[fileA], false, [], "", true, ""⟩

/-- Individual-mode state with `A.pdf` and `B.pdf` pending. -/
def sIndividualAB : AppState := ⟨[fileA, fileB], false, [], "", false, ""⟩

/-- Individual-mode state with `A.pdf`, `B.pdf` and `C.pdf` pending. -/
def sIndividualABC : AppState := ⟨[fileA, fileB, fileC], false, [], "", false, ""⟩

/-- Extraction succeeding on `A.pdf`, `B.pdf` and `C.pdf`. -/
def exABC : Extract := fun f =>
  if f.name = "A.pdf" then .ok (some "TextA")
  else if f.name = "B.pdf" then .ok (some "TextB")
  else if f.name = "C.pdf" then .ok (some "TextC")
  else .ok none

/-- Extraction succeeding only on `A.pdf` and resolving to `null` elsewhere. -/
def exAonly : Extract := fun f =>
  if f.name = "A.pdf" then .ok (some "TextA") else .ok none

/-- Extraction always resolving to `null`. -/
def exNone : Extract := fun _ => .ok none

/-- Transformation wrapping the text in an html tag pair. -/
def trTag : Transform := fun t => .ok ("<html>" ++ t ++ "</html>")

/-- Transformation rejecting with an exception carrying no message. -/
def trFailNoMsg : Transform := fun _ => .error ⟨none⟩

/-- Transformation rejecting with message `boom` exactly on `TextB`. -/
def trFailOnB : Transform := fun t =>
  if t = "TextB" then .error ⟨some "boom"⟩ else .ok ("<html>" ++ t ++ "</html>")

/-! ### C7: the empty-pending-set validation check -/

/-- C7: invoking a run with an empty pending file set fails immediately
with the validation error "Please select one or more PDF files first.",
makes no adapter call, never sets the in-progress flag, and leaves the
result set and status message (and everything but the error) unchanged. -/
theorem emptyRun_validation (s : AppState) (ex : Extract) (tr : Transform)
    (h : s.pdfFiles = []) :
    handleConvertTrace s ex tr = [Ev.setError noFilesMsg] ∧
    (handleConvertTrace s ex tr).filter isCall = [] ∧
    handleConvert s ex tr = { s with error := noFilesMsg } := by
  have he := handleConvert_empty s ex tr h
  exact ⟨he.1, by rw [he.1]; rfl, he.2⟩

/-- C7 witness: the validation check at the initial state. -/
theorem emptyRun_validation_witness :
    handleConvertTrace initialState exABC trTag = [Ev.setError noFilesMsg] ∧
    (handleConvertTrace initialState exABC trTag).filter isCall = [] ∧
    handleConvert initialState exABC trTag = { initialState with error := noFilesMsg } :=
  emptyRun_validation initialState exABC trTag rfl

/-! ### C10: `handleRemoveFile` removes by name and frames everything else -/

/-- C10: `remove(name)` keeps exactly the pending files whose name differs
from the given name (a no-op when none matches) and leaves the result
set, the error string, the in-progress flag, the status message and the
mode unchanged. -/
theorem removeFile_frame (s : AppState) (nm : String) :
    (handleRemoveFile s nm).pdfFiles = s.pdfFiles.filter (fun f => f.name ≠ nm) ∧
    (∀ f, f ∈ (handleRemoveFile s nm).pdfFiles ↔ f ∈ s.pdfFiles ∧ f.name ≠ nm) ∧
    (handleRemoveFile s nm).results = s.results ∧
    (handleRemoveFile s nm).error = s.error ∧
    (handleRemoveFile s nm).isConverting = s.isConverting ∧
    (handleRemoveFile s nm).conversionStatus = s.conversionStatus ∧
    (handleRemoveFile s nm).combineOutput = s.combineOutput ∧
    ((∀ f ∈ s.pdfFiles, f.name ≠ nm) → handleRemoveFile s nm = s) := by
  refine ⟨rfl, ?_, rfl, rfl, rfl, rfl, rfl, ?_⟩
  · intro f
    simp [handleRemoveFile, List.mem_filter]
  · intro h
    show { s with pdfFiles := s.pdfFiles.filter (fun f => f.name ≠ nm) } = s
    rw [List.filter_eq_self.mpr (fun f hf => by simpa using h f hf)]

/-- C10 witness: removing a non-matching name is the identity; removing
`A.pdf` keeps exactly `B.pdf`, with results and error untouched. -/
theorem removeFile_frame_witness :
    handleRemoveFile sIndividualAB "C.pdf" = sIndividualAB ∧
    (handleRemoveFile sIndividualAB "A.pdf").pdfFiles = [fileB] ∧
    (handleRemoveFile sIndividualAB "A.pdf").results = sIndividualAB.results := by
  refine ⟨(removeFile_frame sIndividualAB "C.pdf").2.2.2.2.2.2.2 (by decide), ?_, ?_⟩
  · exact ((removeFile_frame sIndividualAB "A.pdf").1).trans (by decide)
  · exact (removeFile_frame sIndividualAB "A.pdf").2.2.1

/-! ### C6: deduplication in `handleFilesAdded` -/

/-- A batch carrying the same name twice. -/
def dupBatch : List PFile := [⟨"A.pdf", 1⟩, ⟨"A.pdf", 2⟩]

/-- C6 counterexample: the claim says candidates colliding with another
candidate in the same batch are dropped; but `handleFilesAdded` only
filters against the names already pending, so adding the two-element
batch `A.pdf, A.pdf` to the empty pending set keeps both copies and the
resulting pending set holds the name `A.pdf` twice. -/
theorem filesAdded_dup_batch_counterexample :
    (handleFilesAdded initialState dupBatch).pdfFiles.map PFile.name =
      ["A.pdf", "A.pdf"] ∧
    ¬ ((handleFilesAdded initialState dupBatch).pdfFiles.map PFile.name).Nodup := by
  exact ⟨by decide, by decide⟩

/-- C6 amended: candidates whose name collides with a name already in the
pending set are silently dropped and the survivors are appended in
arrival order (and results/error are cleared); candidates are not
deduplicated against each other, so the resulting pending set has each
name at most once provided the batch itself repeats no name. -/
theorem filesAdded_dedupe (s : AppState) (newFiles : List PFile)
    (hs : (s.pdfFiles.map PFile.name).Nodup)
    (hnew : (newFiles.map PFile.name).Nodup) :
    (handleFilesAdded s newFiles).pdfFiles =
      s.pdfFiles ++
        newFiles.filter (fun f => ¬ (s.pdfFiles.map PFile.name).contains f.name) ∧
    ((handleFilesAdded s newFiles).pdfFiles.map PFile.name).Nodup ∧
    (handleFilesAdded s newFiles).results = [] ∧
    (handleFilesAdded s newFiles).error = "" := by
  refine ⟨rfl, ?_, rfl, rfl⟩
  show ((s.pdfFiles ++
      newFiles.filter (fun f => ¬ (s.pdfFiles.map PFile.name).contains f.name)).map
      PFile.name).Nodup
  rw [List.map_append, List.nodup_append]
  refine ⟨hs, ?_, ?_⟩
  · exact hnew.sublist ((List.filter_sublist newFiles).map PFile.name)
  · intro x hx hx2
    obtain ⟨g, hg, rfl⟩ := List.mem_map.mp hx2
    have hfg := List.of_mem_filter hg
    simp only [decide_not, Bool.not_eq_true', decide_eq_false_iff_not] at hfg
    exact hfg (by simpa [List.elem_iff] using hx)

/-- C6 amended witness: re-adding `A.pdf` together with the fresh `B.pdf`
keeps a single `A.pdf`. -/
theorem filesAdded_dedupe_witness :
    (handleFilesAdded { initialState with pdfFiles := [fileA] }
        [⟨"A.pdf", 9⟩, fileB]).pdfFiles = [fileA, fileB] ∧
    ((handleFilesAdded { initialState with pdfFiles := [fileA] }
        [⟨"A.pdf", 9⟩, fileB]).pdfFiles.map PFile.name).Nodup := by
  have h := filesAdded_dedupe { initialState with pdfFiles := [fileA] }
    [⟨"A.pdf", 9⟩, fileB] (by decide) (by decide)
  exact ⟨h.1.trans (by decide), h.2.1⟩

/-! ### C5: results and error after a run -/

/-- State reached by toggling combined mode off and adding `A.pdf`. -/
def c5s1 : AppState := handleFilesAdded (setCombineOutput initialState false) [fileA]

/-- State after a successful individual-mode run over `A.pdf`. -/
def c5s2 : AppState := handleConvert c5s1 exAonly trTag

/-- State after then removing `A.pdf` (results are kept). -/
def c5s3 : AppState := handleRemoveFile c5s2 "A.pdf"

/-- State after invoking a run on the now-empty pending set. -/
def c5s4 : AppState := handleConvert c5s3 exAonly trTag

/-- C5 counterexample: a reachable scenario (add `A.pdf`, run
individually with success, remove `A.pdf`, run again) ends a run with the
stale result for `A.pdf` still present *and* the validation error set:
both the result set and the error string are non-empty after the run. -/
theorem run_results_and_error_both_nonempty :
    c5s4.results = [⟨"A.pdf", "<html>TextA</html>"⟩] ∧
    c5s4.error = noFilesMsg ∧
    c5s4.results ≠ [] ∧ c5s4.error ≠ "" := by
  exact ⟨by decide, by decide, by decide, by decide⟩

/-- C5 amended: after every run over a *non-empty* pending set, at most
one of the result set and the error string is non-empty; a run rejected
by the empty-pending-set validation check instead sets the error while
leaving the (possibly non-empty) prior result set unchanged. -/
theorem run_results_xor_error (s : AppState) (ex : Extract) (tr : Transform) :
    (s.pdfFiles ≠ [] →
      (handleConvert s ex tr).results = [] ∨ (handleConvert s ex tr).error = "") ∧
    (s.pdfFiles = [] → handleConvert s ex tr = { s with error := noFilesMsg }) := by
  constructor
  · intro h
    have hf := handleConvert_fields s ex tr h
    rcases ho : (bodyRun s ex tr).2 with e | rs
    · left; rw [hf.2.2.2.2.1, ho]
    · right; rw [hf.2.2.2.2.2, ho]
  · intro h
    exact (handleConvert_empty s ex tr h).2

/-- C5 amended witness: a run over two pending files never leaves both
results and error non-empty. -/
theorem run_results_xor_error_witness :
    (handleConvert sCombinedAB exABC trTag).results = [] ∨
      (handleConvert sCombinedAB exABC trTag).error = "" :=
  (run_results_xor_error sCombinedAB exABC trTag).1 (by decide)

/-! ### C1: the single combined transformation call -/

/-- C1: in combined mode over a non-empty pending set whose extractions
all resolve (to text or `null`), if at least one file yields text then
the transformation adapter is called exactly once, on the surviving
texts joined in original file-submission order by
`"\n\n<hr />\n\n"`; if no file yields text, no transformation call is
made and the run ends with the error "Could not extract text from any of
the provided files.". -/
theorem combined_transform_once (s : AppState) (ex : Extract) (tr : Transform)
    (texts : List (Option String))
    (hmode : s.combineOutput = true) (hne : s.pdfFiles ≠ [])
    (hfo : fanOut ex s.pdfFiles = .ok texts) :
    (texts.filterMap id ≠ [] →
      (handleConvertTrace s ex tr).filter isTransformEv =
        [Ev.transformCall (String.intercalate combinedSep (texts.filterMap id))]) ∧
    (texts.filterMap id = [] →
      (handleConvertTrace s ex tr).filter isTransformEv = [] ∧
      (handleConvert s ex tr).error = noTextMsg) := by
  have hb : bodyRun s ex tr = combinedRun ex tr s.pdfFiles := by
    unfold bodyRun; rw [if_pos hmode]
  have htreq := handleConvertTrace_eq s ex tr hne
  constructor
  · intro hv
    rw [htreq, hb, combinedRun_transform ex tr s.pdfFiles texts hfo hv]
    rcases htc : tr (String.intercalate combinedSep (texts.filterMap id)) with e | g <;>
      simp [List.filter_append, List.filter_cons, isTransformEv,
        filter_map_extractCall_false isTransformEv (fun _ => rfl)]
  · intro hv
    have hcr := combinedRun_no_text ex tr s.pdfFiles texts hfo hv
    constructor
    · rw [htreq, hb, hcr]
      simp [List.filter_append, List.filter_cons, isTransformEv,
        filter_map_extractCall_false isTransformEv (fun _ => rfl)]
    · have hf := handleConvert_fields s ex tr hne
      rw [hf.2.2.2.2.2, hb, hcr]
      show errMessage ⟨some noTextMsg⟩ = noTextMsg
      decide

/-- C1 witness: with `A.pdf` and `B.pdf` both extracting, the single
transformation call receives `"TextA\n\n<hr />\n\nTextB"`; with one
pending file extracting to `null`, no transformation call happens and
the run errors. -/
theorem combined_transform_once_witness :
    (handleConvertTrace sCombinedAB exABC trTag).filter isTransformEv =
      [Ev.transformCall "TextA\n\n<hr />\n\nTextB"] ∧
    (handleConvertTrace sCombinedA exNone trTag).filter isTransformEv = [] ∧
    (handleConvert sCombinedA exNone trTag).error = noTextMsg := by
  have h1 := combined_transform_once sCombinedAB exABC trTag
    [some "TextA", some "TextB"] rfl (by decide) (by decide)
  have h2 := combined_transform_once sCombinedA exNone trTag [none] rfl (by decide) (by decide)
  exact ⟨(h1.1 (by decide)).trans (by decide), (h2.2 rfl).1, (h2.2 rfl).2⟩

/-! ### C3: combined mode is all-or-nothing -/

/-- C3: after every combined-mode run (over a non-empty pending set) the
result set is either a single result labeled "Combined Output" or empty;
when the extraction fan-out rejects, or the transformation call rejects,
the result set stays empty and the error string is the failure's message
(via `errMessage`, which falls back to "An unknown error occurred during
conversion." when the failure carries no message). -/
theorem combined_all_or_nothing (s : AppState) (ex : Extract) (tr : Transform)
    (hmode : s.combineOutput = true) (hne : s.pdfFiles ≠ []) :
    ((handleConvert s ex tr).results = [] ∨
      ∃ generatedHtml,
        (handleConvert s ex tr).results = [⟨"Combined Output", generatedHtml⟩]) ∧
    (∀ e, fanOut ex s.pdfFiles = .error e →
      (handleConvert s ex tr).results = [] ∧
      (handleConvert s ex tr).error = errMessage e) ∧
    (∀ texts e, fanOut ex s.pdfFiles = .ok texts → texts.filterMap id ≠ [] →
      tr (String.intercalate combinedSep (texts.filterMap id)) = .error e →
      (handleConvert s ex tr).results = [] ∧
      (handleConvert s ex tr).error = errMessage e) := by
  have hb : bodyRun s ex tr = combinedRun ex tr s.pdfFiles := by
    unfold bodyRun; rw [if_pos hmode]
  have hf := handleConvert_fields s ex tr hne
  refine ⟨?_, ?_, ?_⟩
  · rcases ho : (bodyRun s ex tr).2 with e | rs
    · left; rw [hf.2.2.2.2.1, ho]
    · right
      obtain ⟨g, hg⟩ := combinedRun_ok_shape ex tr s.pdfFiles rs (by rw [← hb]; exact ho)
      exact ⟨g, by rw [hf.2.2.2.2.1, ho, hg]⟩
  · intro e hfo
    have ho : (bodyRun s ex tr).2 = .error e := by
      rw [hb, combinedRun_fanout_error ex tr s.pdfFiles e hfo]
    exact ⟨by rw [hf.2.2.2.2.1, ho], by rw [hf.2.2.2.2.2, ho]⟩
  · intro texts e hfo hv htc
    have ho : (bodyRun s ex tr).2 = .error e := by
      rw [hb, combinedRun_transform ex tr s.pdfFiles texts hfo hv]
      simp only [htc]
    exact ⟨by rw [hf.2.2.2.2.1, ho], by rw [hf.2.2.2.2.2, ho]⟩

/-- C3 witness: a transformation rejection carrying no message leaves the
result set empty and sets the generic fallback error. -/
theorem combined_all_or_nothing_witness :
    (handleConvert sCombinedAB exABC trFailNoMsg).results = [] ∧
    (handleConvert sCombinedAB exABC trFailNoMsg).error = unknownErrorMsg := by
  have h := combined_all_or_nothing sCombinedAB exABC trFailNoMsg rfl (by decide)
  have h2 := h.2.2 [some "TextA", some "TextB"] ⟨none⟩ (by decide) (by decide) (by decide)
  exact ⟨h2.1, h2.2.trans (by decide)⟩

/-! ### C2: individual mode processes sequentially and keeps partial successes -/

/-- C2: in individual mode over a non-empty pending set, when every
extraction resolves (to text or `null`) and every attempted
transformation call succeeds, the adapter calls are exactly, in original
file-submission order, each file's extraction followed (for files whose
extraction yielded text) by its transformation; the final result set has
exactly one entry per file whose extraction yielded text — labelled with
the file's name and carrying the transformed text, in original order —
and none for the files whose extraction failed; and the run ends with an
empty error string even when no file succeeded. -/
theorem individual_sequential_results (s : AppState) (ex : Extract) (tr : Transform)
    (hmode : s.combineOutput = false) (hne : s.pdfFiles ≠ [])
    (hex : ∀ f ∈ s.pdfFiles, isOkE (ex f) = true)
    (htr : ∀ f ∈ s.pdfFiles, (extractedText ex f).all (fun t => isOkE (tr t)) = true) :
    (handleConvert s ex tr).results = s.pdfFiles.filterMap (indResult ex tr) ∧
    (handleConvert s ex tr).error = "" ∧
    (handleConvertTrace s ex tr).filter isCall = s.pdfFiles.flatMap (fileCalls ex) := by
  have hsteps := individualSteps_ok ex tr s.pdfFiles.length s.pdfFiles 0 [] hex htr
  have hb : bodyRun s ex tr = individualRun ex tr s.pdfFiles := by
    unfold bodyRun; rw [if_neg (by simp [hmode])]
  have ho : (bodyRun s ex tr).2 = .ok (s.pdfFiles.filterMap (indResult ex tr)) := by
    rw [hb, individualRun_outcome, hsteps.1]
    simp [hsteps.2.1]
  have hf := handleConvert_fields s ex tr hne
  refine ⟨?_, ?_, ?_⟩
  · rw [hf.2.2.2.2.1, ho]
  · rw [hf.2.2.2.2.2, ho]
  · rw [handleConvertTrace_calls s ex tr hne, hb, individualRun_events]
    exact hsteps.2.2

/-- C2 witness: `A.pdf` extracts and transforms, `B.pdf` fails
extraction; the run keeps `A.pdf`'s result, skips `B.pdf`, makes exactly
the calls extract A, transform A, extract B, and ends without error. -/
theorem individual_sequential_results_witness :
    (handleConvert sIndividualAB exAonly trTag).results =
      [⟨"A.pdf", "<html>TextA</html>"⟩] ∧
    (handleConvert sIndividualAB exAonly trTag).error = "" ∧
    (handleConvertTrace sIndividualAB exAonly trTag).filter isCall =
      [Ev.extractCall fileA, Ev.transformCall "TextA", Ev.extractCall fileB] := by
  have h := individual_sequential_results sIndividualAB exAonly trTag rfl
    (by decide) (by decide) (by decide)
  exact ⟨h.1.trans (by decide), h.2.1, h.2.2.trans (by decide)⟩

/-! ### C8: a transformation failure aborts the remaining batch -/

/-- C8: in individual mode, when the files before `f` all extract (or
skip) and transform successfully and `f`'s transformation call rejects
with exception `e`, the run makes no call for any file after `f` (the
calls are exactly those of the earlier files followed by `f`'s
extraction and failed transformation), the error string is set from the
failure via `errMessage`, and the result set after the run is empty —
the results already produced for the earlier files are discarded. -/
theorem individual_transform_abort (s : AppState) (ex : Extract) (tr : Transform)
    (pre post : List PFile) (f : PFile) (t : String) (e : Exc)
    (hmode : s.combineOutput = false)
    (hsplit : s.pdfFiles = pre ++ f :: post)
    (hex : ∀ p ∈ pre, isOkE (ex p) = true)
    (htr : ∀ p ∈ pre, (extractedText ex p).all (fun u => isOkE (tr u)) = true)
    (hf : ex f = .ok (some t)) (ht : ¬ t = "") (htrt : tr t = .error e) :
    (handleConvert s ex tr).results = [] ∧
    (handleConvert s ex tr).error = errMessage e ∧
    (handleConvertTrace s ex tr).filter isCall =
      pre.flatMap (fileCalls ex) ++ [Ev.extractCall f, Ev.transformCall t] := by
  have hne : s.pdfFiles ≠ [] := by rw [hsplit]; simp
  have habort := individualSteps_abort ex tr (pre ++ f :: post).length f t e hf ht htrt
    pre 0 [] post hex htr
  have hb : bodyRun s ex tr = individualRun ex tr (pre ++ f :: post) := by
    unfold bodyRun; rw [if_neg (by simp [hmode]), hsplit]
  have ho : (bodyRun s ex tr).2 = .error e := by
    rw [hb, individualRun_outcome, habort.1]
  have hfields := handleConvert_fields s ex tr hne
  refine ⟨?_, ?_, ?_⟩
  · rw [hfields.2.2.2.2.1, ho]
  · rw [hfields.2.2.2.2.2, ho]
  · rw [handleConvertTrace_calls s ex tr hne, hb, individualRun_events]
    exact habort.2

/-- C8 witness: with `A.pdf`, `B.pdf`, `C.pdf` pending and the
transformation rejecting on `B.pdf`'s text, the run stops before
`C.pdf`, discards `A.pdf`'s already-produced result, and reports the
failure's message. -/
theorem individual_transform_abort_witness :
    (handleConvert sIndividualABC exABC trFailOnB).results = [] ∧
    (handleConvert sIndividualABC exABC trFailOnB).error = "boom" ∧
    (handleConvertTrace sIndividualABC exABC trFailOnB).filter isCall =
      [Ev.extractCall fileA, Ev.transformCall "TextA",
        Ev.extractCall fileB, Ev.transformCall "TextB"] := by
  have h := individual_transform_abort sIndividualABC exABC trFailOnB
    [fileA] [fileC] fileB "TextB" ⟨some "boom"⟩ rfl (by decide)
    (by decide) (by decide) (by decide) (by decide) (by decide)
  exact ⟨h.1, h.2.1.trans (by decide), h.2.2.trans (by decide)⟩

/-! ### C4: guaranteed cleanup and the status/flag invariant -/

/-- C4: for every run started from an idle state (flag down, empty
status), in either mode and whatever the outcome (success, partial
success, failure, or a propagated exception), the final state has the
in-progress flag false and an empty status message, and every observable
state of the run with the flag false has an empty status string. -/
theorem run_cleanup (s : AppState) (ex : Extract) (tr : Transform)
    (h1 : s.isConverting = false) (h2 : s.conversionStatus = "") :
    (handleConvert s ex tr).isConverting = false ∧
    (handleConvert s ex tr).conversionStatus = "" ∧
    ∀ st ∈ snapshots s (handleConvertTrace s ex tr),
      st.isConverting = false → st.conversionStatus = "" := by
  by_cases hne : s.pdfFiles = []
  · have hemp := handleConvert_empty s ex tr hne
    refine ⟨by rw [hemp.2]; exact h1, by rw [hemp.2]; exact h2, ?_⟩
    intro st hst
    rw [hemp.1] at hst
    have : st = { s with error := noFilesMsg } := by
      simpa [snapshots, isCall, applyEv, runEvents] using hst
    subst this
    intro _
    exact h2
  · have hf := handleConvert_fields s ex tr hne
    refine ⟨hf.2.2.1, hf.2.2.2.1, ?_⟩
    intro st hst
    rcases snapshots_trace_split s ex tr hne st hst with hmid | hfin
    · intro hflag
      rw [hmid.1] at hflag
      exact absurd hflag (by simp)
    · subst hfin
      intro _
      exact hf.2.2.2.1

/-- C4 witness: cleanup after a successful combined run from the idle
two-file state. -/
theorem run_cleanup_witness :
    (handleConvert sCombinedAB exABC trTag).isConverting = false ∧
    (handleConvert sCombinedAB exABC trTag).conversionStatus = "" := by
  have h := run_cleanup sCombinedAB exABC trTag rfl rfl
  exact ⟨h.1, h.2.1⟩

/-! ### C9: when the result set becomes visible in individual mode -/

/-- C9 counterexample: with `A.pdf` and `B.pdf` both succeeding in
individual mode, the observable state at `B.pdf`'s extraction call — after
`A.pdf`'s successful extraction and transformation — still has an empty
result set (index 2 of the snapshots is the state at the third adapter
call, `B.pdf`'s extraction); the result set only becomes non-empty in the
final snapshot, so it is not grown incrementally mid-run. -/
theorem individual_incremental_counterexample :
    (handleConvertTrace sIndividualAB exABC trTag).filter isCall =
      [Ev.extractCall fileA, Ev.transformCall "TextA",
        Ev.extractCall fileB, Ev.transformCall "TextB"] ∧
    (snapshots sIndividualAB (handleConvertTrace sIndividualAB exABC trTag)).map
        AppState.results =
      [[], [], [], [],
        [⟨"A.pdf", "<html>TextA</html>"⟩, ⟨"B.pdf", "<html>TextB</html>"⟩]] := by
  exact ⟨by decide, by decide⟩

/-- C9 amended: in individual mode the observable result set is *not*
grown incrementally: successful per-file results accumulate in a
run-local list, every observable state before run termination has an
empty result set, and the result set is replaced exactly once, at run
end, with the accumulated per-successful-file results in original
order. -/
theorem individual_results_set_once (s : AppState) (ex : Extract) (tr : Transform)
    (hmode : s.combineOutput = false) (hne : s.pdfFiles ≠ [])
    (hex : ∀ f ∈ s.pdfFiles, isOkE (ex f) = true)
    (htr : ∀ f ∈ s.pdfFiles, (extractedText ex f).all (fun t => isOkE (tr t)) = true) :
    (∀ st ∈ (snapshots s (handleConvertTrace s ex tr)).dropLast, st.results = []) ∧
    (handleConvert s ex tr).results = s.pdfFiles.filterMap (indResult ex tr) := by
  constructor
  · intro st hst
    rw [snapshots_trace_eq s ex tr hne, List.dropLast_concat] at hst
    have h2 := (List.dropLast_prefix _).subset hst
    exact (snapshots_statusOrCall (bodyRun s ex tr).1
      { s with isConverting := true, error := "", results := [] }
      (bodyRun_statusOrCall s ex tr) st h2).2.1
  · have hsteps := individualSteps_ok ex tr s.pdfFiles.length s.pdfFiles 0 [] hex htr
    have hb : bodyRun s ex tr = individualRun ex tr s.pdfFiles := by
      unfold bodyRun; rw [if_neg (by simp [hmode])]
    have ho : (bodyRun s ex tr).2 = .ok (s.pdfFiles.filterMap (indResult ex tr)) := by
      rw [hb, individualRun_outcome, hsteps.1]
      simp [hsteps.2.1]
    have hf := handleConvert_fields s ex tr hne
    rw [hf.2.2.2.2.1, ho]

/-- C9 amended witness: in the two-file success run, every observable
state before termination has empty results and the final state holds
both results at once. -/
theorem individual_results_set_once_witness :
    (∀ st ∈ (snapshots sIndividualAB
        (handleConvertTrace sIndividualAB exABC trTag)).dropLast, st.results = []) ∧
    (handleConvert sIndividualAB exABC trTag).results =
      [⟨"A.pdf", "<html>TextA</html>"⟩, ⟨"B.pdf", "<html>TextB</html>"⟩] := by
  have h := individual_results_set_once sIndividualAB exABC trTag rfl
    (by decide) (by decide) (by decide)
  exact ⟨h.1, h.2.trans (by decide)⟩

end PdfToHtml
